import Mathlib

/-!
Verification of the `rust_git` object store core against its design
specification.  The Rust source is shallowly embedded: Rust `String`/`&str`
values that are sliced at byte indices are modelled as `List Nat` byte
sequences (a Rust `String` is a UTF-8 byte sequence and `len()`/slicing are
byte based); the KVLM text format, whose delimiters are the ASCII characters
space and newline, is modelled over `List Char` (byte indices of ASCII
delimiters always fall on character boundaries, so the slices produced are
the same text fragments).
-/

set_option maxHeartbeats 1000000
set_option maxRecDepth 100000

/-- Model of Rust `str::find(char) -> Option<usize>`: index of the first
occurrence of an element in a list (`none` when absent).  For ASCII needles
the byte index and the element index coincide on the slices the source
takes. -/
def strFind {α : Type} [DecidableEq α] (c : α) : List α → Option Nat
  | [] => none
  | x :: xs => if x = c then some 0 else (strFind c xs).map (· + 1)

theorem strFind_lt_length {α : Type} [DecidableEq α] {c : α} {l : List α} {i : Nat}
    (h : strFind c l = some i) : i < l.length := by
  induction l generalizing i with
  | nil => simp [strFind] at h
  | cons x xs ih =>
    simp only [strFind] at h
    split at h
    · cases h; exact Nat.succ_pos _
    · cases hx : strFind c xs with
      | none => rw [hx] at h; simp at h
      | some j =>
        rw [hx] at h
        simp only [Option.map_some'] at h
        cases h
        have := ih hx
        simp only [List.length_cons]
        omega

theorem strFind_eq_none {α : Type} [DecidableEq α] {c : α} {l : List α} :
    strFind c l = none ↔ c ∉ l := by
  induction l with
  | nil => simp [strFind]
  | cons x xs ih =>
    simp only [strFind]
    constructor
    · intro h
      split at h
      · simp at h
      · rename_i hx
        simp only [Option.map_eq_none'] at h
        simp only [List.mem_cons, not_or]
        exact ⟨fun hc => hx hc.symm, ih.mp h⟩
    · intro h
      simp only [List.mem_cons, not_or] at h
      rw [if_neg (fun he => h.1 he.symm)]
      simp [ih.mpr h.2]

theorem strFind_append_of_not_mem {α : Type} [DecidableEq α] {c : α} {l₁ : List α}
    (l₂ : List α) (h : c ∉ l₁) :
    strFind c (l₁ ++ l₂) = (strFind c l₂).map (l₁.length + ·) := by
  induction l₁ with
  | nil => simp
  | cons x xs ih =>
    simp only [List.mem_cons, not_or] at h
    have hne : ¬ (x = c) := fun he => h.1 he.symm
    show strFind c (x :: (xs ++ l₂)) = _
    simp only [strFind, if_neg hne]
    rw [ih h.2]
    cases strFind c l₂ with
    | none => simp
    | some v => simp; omega

theorem strFind_cons_self {α : Type} [DecidableEq α] (c : α) (l : List α) :
    strFind c (c :: l) = some 0 := by
  simp [strFind]

/-!
## KVLM format (src/git_object.rs, kvlm_parser / kvlm_serialize)

The source parser takes the content and an optional accumulator (`None` on
the outermost call); we pass the accumulator explicitly, with the outer
wrapper `kvlmParse` supplying the empty one.  The source name `kvlm_parser`
is kept as `kvlmParser`.  Entries are (key, value) pairs of text.
-/

/-- Model of `kvlm_parser` from src/git_object.rs: look up the first space and the
first newline; no newline is an error; no space, or a space only after the
newline, means the blank separator line was reached and the rest of the
input becomes the trailing message entry (empty key); otherwise the text
before the space is the key, the text between space and newline the value,
and parsing continues after the newline. -/
def kvlmParser (content : List Char) (kvv : List (List Char × List Char)) :
    Except String (List (List Char × List Char)) :=
  match hlb : strFind '\n' content with
  | none => .error "Could not find a new line break, content is malformed"
  | some lineBreak =>
    match strFind ' ' content with
    | none => .ok (kvv ++ [([], content.drop (lineBreak + 1))])
    | some blankSpace =>
      if blankSpace > lineBreak then
        .ok (kvv ++ [([], content.drop (lineBreak + 1))])
      else
        kvlmParser (content.drop (lineBreak + 1))
          (kvv ++ [(content.take blankSpace, (content.take lineBreak).drop (blankSpace + 1))])
termination_by content.length
decreasing_by
  have hlt := strFind_lt_length hlb
  simp only [List.length_drop]
  omega

/-- Outermost call of the source parser, with `kvv = None`. -/
def kvlmParse (content : List Char) : Except String (List (List Char × List Char)) :=
  kvlmParser content []

/-- Model of `kvlm_serialize` from src/git_object.rs: fold over the entries, emitting
`key ++ " " ++ value ++ "\n"` for a header entry and `"\n" ++ value` for the
message entry (empty key). -/
def kvlm_serialize (kvv : List (List Char × List Char)) : List Char :=
  kvv.foldl
    (fun acc current =>
      if current.1 = [] then acc ++ '\n' :: current.2
      else acc ++ current.1 ++ ' ' :: current.2 ++ ['\n'])
    []

example :
    kvlmParse ("tree abc123\n\nhello\n".data) =
      .ok [("tree".data, "abc123".data), ([], "hello\n".data)] := by
  simp [kvlmParse, kvlmParser, strFind, String.data]

/-!
## The KVLM grammar (spec section 4.3)

A well-formed KVLM text is a sequence of header lines `key value\n` (key a
non-empty token with no space or newline, value free of newlines), then a
blank line, then a free-text message running to the end of the input.
-/

/-- The text of one header line: `key ++ " " ++ value ++ "\n"`. -/
def headerLine (kv : List Char × List Char) : List Char :=
  kv.1 ++ ' ' :: (kv.2 ++ ['\n'])

/-- Well-formedness of a header entry per the grammar of spec section 4.3. -/
def headerOk (kv : List Char × List Char) : Prop :=
  kv.1 ≠ [] ∧ ' ' ∉ kv.1 ∧ '\n' ∉ kv.1 ∧ '\n' ∉ kv.2

instance (kv : List Char × List Char) : Decidable (headerOk kv) := by
  unfold headerOk; infer_instance

/-- A well-formed KVLM text assembled from its header entries and message. -/
def kvlmText (headers : List (List Char × List Char)) (msg : List Char) : List Char :=
  (headers.map headerLine).join ++ '\n' :: msg

theorem headerLine_length (kv : List Char × List Char) :
    (headerLine kv).length = kv.1.length + kv.2.length + 2 := by
  simp [headerLine]; omega

/-- On a well-formed KVLM text the parser appends exactly the headers and the
message entry to its accumulator. -/
theorem kvlmParser_kvlmText (headers : List (List Char × List Char))
    (msg : List Char) (hok : ∀ kv ∈ headers, headerOk kv) :
    ∀ acc, kvlmParser (kvlmText headers msg) acc = .ok (acc ++ headers ++ [([], msg)]) := by
  induction headers with
  | nil =>
    intro acc
    have htext : kvlmText [] msg = '\n' :: msg := by simp [kvlmText]
    rw [htext, kvlmParser]
    rw [strFind_cons_self]
    have hsp : strFind ' ' ('\n' :: msg) = (strFind ' ' msg).map (· + 1) := by
      simp [strFind]
    rw [hsp]
    cases strFind ' ' msg with
    | none => simp
    | some j => simp
  | cons kv hs ih =>
    intro acc
    obtain ⟨hk_ne, hk_sp, hk_nl, hv_nl⟩ := hok kv (by simp)
    have hok' : ∀ kv' ∈ hs, headerOk kv' := fun kv' h => hok kv' (by simp [h])
    have htext : kvlmText (kv :: hs) msg = headerLine kv ++ kvlmText hs msg := by
      simp [kvlmText, headerLine]
    rw [htext]
    -- first newline: at position |key| + 1 + |value|
    have hnl : strFind '\n' (headerLine kv ++ kvlmText hs msg) =
        some (kv.1.length + (kv.2.length + 1)) := by
      have h1 : '\n' ∉ kv.1 ++ [' '] := by
        simp only [List.mem_append, List.mem_singleton, not_or]
        exact ⟨hk_nl, by decide⟩
      have h2 : '\n' ∉ (kv.1 ++ [' ']) ++ kv.2 := by
        simp only [List.mem_append, not_or] at h1 ⊢
        exact ⟨h1, hv_nl⟩
      have hshape : headerLine kv ++ kvlmText hs msg =
          ((kv.1 ++ [' ']) ++ kv.2) ++ '\n' :: (kvlmText hs msg) := by
        simp [headerLine]
      rw [hshape, strFind_append_of_not_mem _ h2, strFind_cons_self]
      simp only [Option.map_some', List.length_append, List.length_append,
        List.length_singleton, Option.some.injEq]
      omega
    -- first space: at position |key|
    have hsp : strFind ' ' (headerLine kv ++ kvlmText hs msg) = some kv.1.length := by
      have hshape : headerLine kv ++ kvlmText hs msg =
          kv.1 ++ ' ' :: (kv.2 ++ ['\n'] ++ kvlmText hs msg) := by
        simp [headerLine]
      rw [hshape, strFind_append_of_not_mem _ hk_sp, strFind_cons_self]
      simp
    have hcmp : ¬ (kv.1.length > kv.1.length + (kv.2.length + 1)) := by omega
    rw [kvlmParser, hnl, hsp]
    simp only [hcmp, if_false]
    -- the three slices
    have htake_key : (headerLine kv ++ kvlmText hs msg).take kv.1.length = kv.1 := by
      have hshape : headerLine kv ++ kvlmText hs msg =
          kv.1 ++ ' ' :: (kv.2 ++ ['\n'] ++ kvlmText hs msg) := by
        simp [headerLine]
      rw [hshape, List.take_left]
    have htake_val :
        ((headerLine kv ++ kvlmText hs msg).take (kv.1.length + (kv.2.length + 1))).drop
          (kv.1.length + 1) = kv.2 := by
      have hshape : headerLine kv ++ kvlmText hs msg =
          ((kv.1 ++ [' ']) ++ kv.2) ++ '\n' :: (kvlmText hs msg) := by
        simp [headerLine]
      rw [hshape]
      have hlen : kv.1.length + (kv.2.length + 1) = ((kv.1 ++ [' ']) ++ kv.2).length := by
        simp only [List.length_append, List.length_singleton]
        omega
      rw [hlen, List.take_left]
      have hlen2 : kv.1.length + 1 = (kv.1 ++ [' ']).length := by simp
      rw [hlen2, List.drop_left]
    have hdrop :
        (headerLine kv ++ kvlmText hs msg).drop (kv.1.length + (kv.2.length + 1) + 1) =
          kvlmText hs msg := by
      have hlen : kv.1.length + (kv.2.length + 1) + 1 = (headerLine kv).length := by
        rw [headerLine_length]; omega
      rw [hlen, List.drop_left]
    rw [htake_key, htake_val, hdrop, ih hok' (acc ++ [(kv.1, kv.2)])]
    simp

/-- The fold step of `kvlm_serialize` only appends to its accumulator. -/
theorem kvlm_serialize_foldl_acc (l : List (List Char × List Char)) :
    ∀ acc, l.foldl
        (fun acc current =>
          if current.1 = [] then acc ++ '\n' :: current.2
          else acc ++ current.1 ++ ' ' :: current.2 ++ ['\n'])
        acc = acc ++ kvlm_serialize l := by
  induction l with
  | nil => intro acc; simp [kvlm_serialize]
  | cons kv hs ih =>
    intro acc
    simp only [List.foldl_cons, kvlm_serialize]
    rw [ih, ih ((fun acc current =>
          if current.1 = [] then acc ++ '\n' :: current.2
          else acc ++ current.1 ++ ' ' :: current.2 ++ ['\n']) [] kv)]
    by_cases hk : kv.1 = [] <;> simp [hk]

/-- Serializing headers followed by the message entry rebuilds the text. -/
theorem kvlm_serialize_kvlmText (headers : List (List Char × List Char))
    (msg : List Char) (hok : ∀ kv ∈ headers, kv.1 ≠ []) :
    kvlm_serialize (headers ++ [([], msg)]) = kvlmText headers msg := by
  induction headers with
  | nil => simp [kvlm_serialize, kvlmText]
  | cons kv hs ih =>
    have hk : kv.1 ≠ [] := hok kv (by simp)
    have hok' : ∀ kv' ∈ hs, kv'.1 ≠ [] := fun kv' h => hok kv' (by simp [h])
    simp only [List.cons_append, kvlm_serialize, List.foldl_cons]
    rw [kvlm_serialize_foldl_acc]
    show _ ++ kvlm_serialize (hs ++ [([], msg)]) = _
    rw [ih hok']
    simp only [kvlmText, List.map_cons, List.join, headerLine, if_neg hk]
    simp

example : kvlmText [("tree".data, "abc123".data)] "hello\n".data =
    "tree abc123\n\nhello\n".data := by decide

/-- C2.  KVLM round-trip law: for every well-formed KVLM text that the
grammar can produce (header lines with non-empty, space- and newline-free
keys and newline-free values, then a blank line, then a free-text message),
parsing succeeds with exactly the header entries in document order (repeated
keys retained as separate entries) followed by the message entry, and
serializing that result yields the original text verbatim (messages with
embedded blank lines included). -/
theorem C2_kvlm_roundtrip (headers : List (List Char × List Char)) (msg : List Char)
    (hok : ∀ kv ∈ headers, headerOk kv) :
    kvlmParse (kvlmText headers msg) = Except.ok (headers ++ [([], msg)]) ∧
    kvlm_serialize (headers ++ [([], msg)]) = kvlmText headers msg := by
  refine ⟨?_, ?_⟩
  · have := kvlmParser_kvlmText headers msg hok []
    simpa [kvlmParse] using this
  · exact kvlm_serialize_kvlmText headers msg (fun kv h => (hok kv h).1)

/-- Witness for C2 at the spec's example `"tree abc123\n\nhello\n"`. -/
theorem C2_kvlm_roundtrip_witness :
    kvlmParse (kvlmText [("tree".data, "abc123".data)] "hello\n".data) =
      Except.ok [("tree".data, "abc123".data), ([], "hello\n".data)] ∧
    kvlm_serialize [("tree".data, "abc123".data), ([], "hello\n".data)] =
      kvlmText [("tree".data, "abc123".data)] "hello\n".data :=
  C2_kvlm_roundtrip [("tree".data, "abc123".data)] "hello\n".data (by decide)

/-- C3.  Continuation-line folding is absent from the source: on input
`"k v\n w\n\nm"` the line `" w"` (single leading space) is parsed as a fresh
entry with an empty key instead of being folded into the previous value,
so the result differs from the folded form `[("k", "v\nw"), ("", "m")]`
that the specification requires. -/
theorem C3_no_continuation_folding :
    kvlmParse "k v\n w\n\nm".data =
      Except.ok [("k".data, "v".data), ([], "w".data), ([], "m".data)] ∧
    (Except.ok [("k".data, "v".data), ([], "w".data), ([], "m".data)] :
        Except String (List (List Char × List Char))) ≠
      Except.ok [("k".data, "v\nw".data), ([], "m".data)] := by
  constructor
  · simp [kvlmParse, kvlmParser, strFind, String.data]
  · intro hcontra
    exact absurd (Except.ok.inj hcontra) (by decide)

/-- C4 counterexample: parsing succeeds on `" w\n\nm"` yet the result holds
two entries with the empty-string key, and the first of them is not the last
element, refuting uniqueness of the empty-key message entry. -/
theorem C4_counterexample :
    kvlmParse " w\n\nm".data = Except.ok [([], "w".data), ([], "m".data)] ∧
    (([([], "w".data), ([], "m".data)] : List (List Char × List Char)).filter
        (fun kv => kv.1.isEmpty)).length = 2 := by
  constructor
  · simp [kvlmParse, kvlmParser, strFind, String.data]
  · decide

/-- Every successful run of the parser ends by appending the message entry,
so the last element of the result has the empty key. -/
theorem kvlmParser_ok_getLast :
    ∀ (n : Nat) (s : List Char), s.length ≤ n →
      ∀ acc r, kvlmParser s acc = .ok r → ∃ v, r.getLast? = some ([], v) := by
  intro n
  induction n with
  | zero =>
    intro s hs acc r h
    have hnil : s = [] := List.length_eq_zero.mp (Nat.le_zero.mp hs)
    subst hnil
    simp [kvlmParser, strFind] at h
  | succ n ih =>
    intro s hs acc r h
    rw [kvlmParser] at h
    split at h
    · simp at h
    · rename_i lineBreak heq
      split at h
      · have hr := Except.ok.inj h
        subst hr
        exact ⟨_, List.getLast?_concat _⟩
      · split at h
        · have hr := Except.ok.inj h
          subst hr
          exact ⟨_, List.getLast?_concat _⟩
        · have hlb := strFind_lt_length heq
          have hlen : (s.drop (lineBreak + 1)).length ≤ n := by
            simp only [List.length_drop]; omega
          exact ih (s.drop (lineBreak + 1)) hlen _ r h

/-- C4 (amended).  On every input on which the parser succeeds, the returned
sequence is non-empty and its last element is the message entry, whose key is
the empty string.  (The original uniqueness part fails: a line with a leading
space contributes a further empty-key entry, see the counterexample.) -/
theorem C4_message_entry_last (s : List Char) (r : List (List Char × List Char))
    (h : kvlmParse s = .ok r) : ∃ v, r.getLast? = some ([], v) :=
  kvlmParser_ok_getLast s.length s (Nat.le_refl _) [] r h

/-- Witness for C4 (amended) at the spec's example input. -/
theorem C4_message_entry_last_witness :
    ∃ v, ([("tree".data, "abc123".data), ([], "hello\n".data)] :
        List (List Char × List Char)).getLast? = some ([], v) :=
  C4_message_entry_last "tree abc123\n\nhello\n".data
    [("tree".data, "abc123".data), ([], "hello\n".data)]
    (by simp [kvlmParse, kvlmParser, strFind, String.data])

/-!
## Object model (src/git_object.rs, GitObject)

Rust `String` payloads are byte sequences (UTF-8); `String::len` and the
header arithmetic of the source are byte based, so payloads are modelled as
`List Nat` with each element a byte value.
-/

/-- The bytes of an ASCII string literal. -/
def asciiStr (s : String) : List Nat := s.data.map Char.toNat

/-- Decimal rendering of a `usize`, as Rust `format!("{}", n)` emits it:
ASCII digits, no sign, no leading zeros (`0` for zero). -/
def natToDecBytes (n : Nat) : List Nat := (Nat.toDigits 10 n).map Char.toNat

/-- The closed object variant of src/git_object.rs. -/
inductive GitObject where
  | Commit (content : List Nat)
  | Blob (content : List Nat)
  | Tag (content : List Nat)
  | Tree (content : List Nat)
deriving DecidableEq

/-- Model of `GitObject::new`: dispatch on the type name; the source panics on an
unrecognized name, modelled as `none`. -/
def GitObject.new (type_str : String) (content : List Nat) : Option GitObject :=
  if type_str = "commit" then some (.Commit content)
  else if type_str = "blob" then some (.Blob content)
  else if type_str = "tag" then some (.Tag content)
  else if type_str = "tree" then some (.Tree content)
  else none

/-- Model of `GitObject::type_string`. -/
def GitObject.type_string : GitObject → List Nat
  | .Commit _ => asciiStr "commit"
  | .Blob _ => asciiStr "blob"
  | .Tag _ => asciiStr "tag"
  | .Tree _ => asciiStr "tree"

/-- Model of `GitObject::serialise`: the raw payload. -/
def GitObject.serialise : GitObject → List Nat
  | .Commit content => content
  | .Blob content => content
  | .Tag content => content
  | .Tree content => content

/-- Model of `GitObject::encoded_header`, `format!("{} {}\x00", type, content.len())`. -/
def GitObject.encoded_header (o : GitObject) : List Nat :=
  o.type_string ++ 32 :: (natToDecBytes o.serialise.length ++ [0])

/-- Model of `GitObject::content_with_headers`: header followed by the payload. -/
def GitObject.content_with_headers (o : GitObject) : List Nat :=
  o.encoded_header ++ o.serialise

/-!
## SHA-1 (the `sha1` crate collaborator)

The hash primitive used by `GitObject::hash`.  Words are `Nat` reduced
modulo `2 ^ 32`.
-/

/-- Truncation to a 32-bit word. -/
def w32 (n : Nat) : Nat := n % 4294967296

/-- Left rotation of a 32-bit word (input below `2 ^ 32`). -/
def rotl (k n : Nat) : Nat := w32 ((n <<< k) ||| (n >>> (32 - k)))

/-- Number of zero bytes between the `0x80` marker and the length field. -/
def sha1PadLen (l : Nat) : Nat := (64 - (l + 9) % 64) % 64

/-- The 64-bit big-endian bit-length trailer. -/
def bitLenBytes (l : Nat) : List Nat :=
  [(8 * l >>> 56) % 256, (8 * l >>> 48) % 256, (8 * l >>> 40) % 256,
   (8 * l >>> 32) % 256, (8 * l >>> 24) % 256, (8 * l >>> 16) % 256,
   (8 * l >>> 8) % 256, (8 * l) % 256]

/-- Standard SHA-1 padding: `0x80`, zeros, 64-bit message bit length. -/
def sha1Pad (msg : List Nat) : List Nat :=
  msg ++ 128 :: (List.replicate (sha1PadLen msg.length) 0 ++ bitLenBytes msg.length)

/-- Big-endian 32-bit words of a byte sequence. -/
def toWords : List Nat → List Nat
  | a :: b :: c :: d :: rest => (((a * 256 + b) * 256 + c) * 256 + d) :: toWords rest
  | _ => []

/-- Message-schedule extension; `r` holds the words produced so far in
reverse, so positions 2, 7, 13, 15 are `w[i-3]`, `w[i-8]`, `w[i-14]`,
`w[i-16]`. -/
def extendLoop : Nat → List Nat → List Nat
  | 0, r => r
  | k + 1, r =>
    extendLoop k (rotl 1 ((((r.getD 2 0) ^^^ (r.getD 7 0)) ^^^ (r.getD 13 0)) ^^^ (r.getD 15 0)) :: r)

/-- The round function. -/
def sha1F (i b c d : Nat) : Nat :=
  if i < 20 then (b &&& c) ||| ((b ^^^ 4294967295) &&& d)
  else if i < 40 then (b ^^^ c) ^^^ d
  else if i < 60 then ((b &&& c) ||| (b &&& d)) ||| (c &&& d)
  else (b ^^^ c) ^^^ d

/-- The round constants. -/
def sha1K (i : Nat) : Nat :=
  if i < 20 then 1518500249
  else if i < 40 then 1859775393
  else if i < 60 then 2400959708
  else 3395469782

/-- The 80 compression rounds over the extended schedule. -/
def sha1Rounds : List Nat → Nat → Nat × Nat × Nat × Nat × Nat → Nat × Nat × Nat × Nat × Nat
  | [], _, s => s
  | w :: ws, i, (a, b, c, d, e) =>
    sha1Rounds ws (i + 1) (w32 (rotl 5 a + sha1F i b c d + e + sha1K i + w), a, rotl 30 b, c, d)

/-- One 512-bit block. -/
def sha1Block (h : Nat × Nat × Nat × Nat × Nat) (ws : List Nat) : Nat × Nat × Nat × Nat × Nat :=
  match h with
  | (h0, h1, h2, h3, h4) =>
    match sha1Rounds ((extendLoop 64 ws.reverse).reverse) 0 (h0, h1, h2, h3, h4) with
    | (a, b, c, d, e) => (w32 (h0 + a), w32 (h1 + b), w32 (h2 + c), w32 (h3 + d), w32 (h4 + e))

/-- Fold over the 16-word blocks of the padded message. -/
def sha1Blocks : Nat × Nat × Nat × Nat × Nat → List Nat → Nat × Nat × Nat × Nat × Nat
  | h, w0 :: w1 :: w2 :: w3 :: w4 :: w5 :: w6 :: w7 :: w8 :: w9 :: w10 :: w11 :: w12 :: w13 :: w14 :: w15 :: rest =>
    sha1Blocks (sha1Block h [w0, w1, w2, w3, w4, w5, w6, w7, w8, w9, w10, w11, w12, w13, w14, w15]) rest
  | h, _ => h

/-- SHA-1 of a byte sequence: the five 32-bit state words. -/
def sha1 (msg : List Nat) : List Nat :=
  match sha1Blocks (1732584193, 4023233417, 2562383102, 271733878, 3285377520)
      (toWords (sha1Pad msg)) with
  | (a, b, c, d, e) => [a, b, c, d, e]

/-- A lowercase hexadecimal digit character. -/
def hexDigitChar (n : Nat) : Char :=
  if n < 10 then Char.ofNat (48 + n) else Char.ofNat (87 + n)

/-- Fixed-width lowercase hexadecimal rendering, most significant first. -/
def toHexFixed : Nat → Nat → List Char
  | 0, _ => []
  | k + 1, v => toHexFixed k (v / 16) ++ [hexDigitChar (v % 16)]

/-- Rendering of `format!("{:x}", hash_result)` on the 20-byte digest: each byte as two
lowercase hex digits, i.e. each state word as eight. -/
def sha1hex (msg : List Nat) : String :=
  String.mk (((sha1 msg).map (toHexFixed 8)).join)

/-- Model of `GitObject::hash`: SHA-1 of `content_with_headers`, rendered in hex. -/
def GitObject.hash (o : GitObject) : String :=
  sha1hex o.content_with_headers

example : sha1hex (asciiStr "abc") = "a9993e364706816aba3e25717850c26c9cd0d89d" := by decide

example :
    (GitObject.Blob (asciiStr "hello world")).hash =
      "95d09f2b10159347eece71399a7e2e907ea3df4f" := by decide

/-!
## Object store (src/repository.rs)

The store is bound to a repository handle; `repo_file` resolves a relative
path under the metadata directory, so the store state is modelled as an
association list from those relative paths to file contents (most recent
write first — `File::create` truncates, so a later write shadows an earlier
one).  The zlib compressor/decompressor pair is the spec section 6
collaborator, symmetric and lossless, so a file's stored content is modelled
by the byte sequence whose compression is on disk.
-/

/-- Store state: relative path under the metadata directory to file bytes. -/
def Store : Type := List (String × List Nat)

/-- File lookup: the most recent write at the path, if any. -/
def storeLookup : Store → String → Option (List Nat)
  | [], _ => none
  | (k, v) :: rest, p => if k = p then some v else storeLookup rest p

/-- The relative path written by `object_write`:
`format!("objects/{}/{}", &hash[..2], &hash[2..])`. -/
def objectsRelPathW (hash : String) : String :=
  "objects/" ++ String.mk (hash.data.take 2) ++ "/" ++ String.mk (hash.data.drop 2)

/-- The relative path derived by `object_read`:
`format!("objects/{}/{}", &sha[..2], &sha[2..])`. -/
def objectsRelPathR (sha : String) : String :=
  "objects/" ++ String.mk (sha.data.take 2) ++ "/" ++ String.mk (sha.data.drop 2)

/-- Model of `Repository::object_write`: always returns the digest; when
`actually_write` is set, also stores the compressed frame at the sharded
path.  Returns the digest with the updated store. -/
def object_write (st : Store) (object : GitObject) (actually_write : Bool) :
    String × Store :=
  let hash := object.hash
  if actually_write then
    (hash, (objectsRelPathW hash, object.content_with_headers) :: st)
  else
    (hash, st)

/-- Outcome of `object_read`: a typed `Ok`, a typed `Err`, or a process
abort (`panic!` / `expect` / `unwrap` in the source). -/
inductive ReadResult where
  | ok (o : GitObject)
  | err (msg : String)
  | abort (msg : String)
deriving DecidableEq

/-- Decimal digits parse, the core of `str::parse::<usize>`: at least one
ASCII digit and nothing else, and the value must fit `usize` (64-bit
platform, so below `2 ^ 64`); on overflow the parse is an error
(`PosOverflow`).  The source checks overflow at each `checked_mul` /
`checked_add` step, which is equivalent to checking the final value, since
every digit-prefix value is at most the full value. -/
def digitsParse : List Nat → Option Nat
  | [] => none
  | l => go l 0
where
  go : List Nat → Nat → Option Nat
    | [], acc => if acc < 18446744073709551616 then some acc else none
    | b :: rest, acc =>
      if 48 ≤ b ∧ b ≤ 57 then go rest (acc * 10 + (b - 48)) else none

/-- Model of `str::parse::<usize>`: an optional leading `+`, then decimal
digits, within the 64-bit `usize` range. -/
def usizeParse (l : List Nat) : Option Nat :=
  match l with
  | 43 :: rest => digitsParse rest
  | _ => digitsParse l

/-- Continuation-byte test for UTF-8 validation: `0x80` to `0xBF`. -/
def contB (b : Nat) : Bool := decide (128 ≤ b ∧ b ≤ 191)

/-- UTF-8 validity of a byte sequence, as `read_to_string` enforces it
(RFC 3629: surrogate range and values above `U+10FFFF` excluded, shortest
form required). -/
def isValidUtf8 : List Nat → Bool
  | [] => true
  | b :: rest =>
    if b ≤ 127 then isValidUtf8 rest
    else if 194 ≤ b ∧ b ≤ 223 then
      match rest with
      | c1 :: rest2 => contB c1 && isValidUtf8 rest2
      | [] => false
    else if 224 ≤ b ∧ b ≤ 239 then
      match rest with
      | c1 :: c2 :: rest3 =>
        (if b = 224 then decide (160 ≤ c1 ∧ c1 ≤ 191)
         else if b = 237 then decide (128 ≤ c1 ∧ c1 ≤ 159)
         else contB c1) && contB c2 && isValidUtf8 rest3
      | _ => false
    else if 240 ≤ b ∧ b ≤ 244 then
      match rest with
      | c1 :: c2 :: c3 :: rest4 =>
        (if b = 240 then decide (144 ≤ c1 ∧ c1 ≤ 191)
         else if b = 244 then decide (128 ≤ c1 ∧ c1 ≤ 143)
         else contB c1) && contB c2 && contB c3 && isValidUtf8 rest4
      | _ => false
    else false

example : usizeParse (asciiStr "18446744073709551615") = some 18446744073709551615 := by
  decide

example : usizeParse (asciiStr "18446744073709551616") = none := by decide

example : usizeParse (asciiStr "99999999999999999999") = none := by decide

example : isValidUtf8 [104, 195, 169] = true := by decide

example : isValidUtf8 [255] = false := by decide

example : isValidUtf8 [237, 160, 128] = false := by decide

/-- Model of `Repository::object_read`: derive the sharded path, read and decompress
the file (a missing file is an `expect` abort), decode the decompressed
bytes as UTF-8 via `read_to_string` (invalid UTF-8 is an `unwrap` abort),
locate the first space and the first NUL, check the declared length (a
length that does not parse as a `usize`, non-digit or overflowing, is an
`unwrap` abort) against the byte count after the NUL, and dispatch on the
type name.  Note the source keeps the NUL in `object_content`
(`&file_contents[object_size_index..]`), compensating in the length check
with `object_content.len() - 1`. -/
def object_read (st : Store) (sha : String) : ReadResult :=
  match storeLookup st (objectsRelPathR sha) with
  | none => .abort "File does not exist"
  | some file_contents =>
    if isValidUtf8 file_contents then
    match strFind 32 file_contents with
    | none => .err "File is malformed"
    | some object_type_index =>
      let object_type := file_contents.take object_type_index
      match strFind 0 file_contents with
      | none => .err "File is malformed"
      | some object_size_index =>
        -- Rust slicing `&s[a..b]` aborts when `a > b`
        if object_size_index < object_type_index + 1 then
          .abort "slice index starts at the end of the slice"
        else
          let object_size := (file_contents.take object_size_index).drop (object_type_index + 1)
          let object_content := file_contents.drop object_size_index
          let real_object_size := object_content.length - 1
          match usizeParse object_size with
          | none => .abort "called Result::unwrap() on an Err value"
          | some declared =>
            if declared ≠ real_object_size then
              .err "Could not read object because sizes mismatch (object is malformed)."
            else
              let content := object_content
              if object_type = asciiStr "commit" then .ok (.Commit content)
              else if object_type = asciiStr "tree" then .ok (.Tree content)
              else if object_type = asciiStr "tag" then .ok (.Tag content)
              else if object_type = asciiStr "blob" then .ok (.Blob content)
              else .err "Object type does not match any known types."
    else .abort "stream did not contain valid UTF-8"

/-- Model of `Repository::_object_find`: returns its `name` argument unchanged. -/
def _object_find (name : String) (_format : String) (_follow : Bool) : String :=
  name

/-!
## Standalone drafts (src/object/tree.rs, src/object/blob.rs)

The standalone `Tree` draft formats its header with the literal `"blob"`,
`format!("{} {}\x00", "blob", content.len())`. -/

/-- Model of `Tree::encoded_header` from src/object/tree.rs. -/
def TreeDraft.encoded_header (content : List Nat) : List Nat :=
  asciiStr "blob" ++ 32 :: (natToDecBytes content.length ++ [0])

/-- Model of `Blob::encoded_header` from src/object/blob.rs. -/
def BlobDraft.encoded_header (content : List Nat) : List Nat :=
  asciiStr "blob" ++ 32 :: (natToDecBytes content.length ++ [0])

/-!
## Repository locator (src/repository.rs, repo_find)

Filesystem paths are modelled as segment lists from the root (`[]` is the
filesystem root); `canonicalize` resolves a path to this canonical form, so
`repo_find` is modelled on already-canonical paths, and `parent` drops the
last segment (`none` at the root).  The one filesystem fact the search
consults is whether `<path>/.got` is a directory, the `hasGotDir` oracle.
`Repository::new` with `force = false` then binds the handle (its own config
handling is outside this claim's scope); the handle is identified by its
worktree root path. -/

/-- Model of `Repository::repo_find`: return `None` when the canonical path has no
parent; otherwise bind a repository when `<path>/.got` is a directory, else
recurse on the parent. -/
def repo_find (hasGotDir : List String → Bool) : List String → Option (List String)
  | [] => none
  | s :: rest =>
    if hasGotDir (s :: rest) then some (s :: rest)
    else repo_find hasGotDir (s :: rest).dropLast
termination_by p => p.length
decreasing_by
  simp only [List.length_dropLast, List.length_cons]
  omega

/-- C10.  `_object_find` returns its `name` argument unchanged for every
name, format and follow flag: no digest-prefix expansion or reference
resolution is performed by this core. -/
theorem C10_object_find_identity (name fmt : String) (follow : Bool) :
    _object_find name fmt follow = name := rfl

/-- C9.  Sharded path layout: for every 40-character digest, `object_write`
stores the frame under `objects/<first 2>/<remaining 38>`, and `object_read`
derives exactly the same relative path from the digest. -/
theorem C9_sharded_path (d : String) (h : d.length = 40) :
    objectsRelPathR d = objectsRelPathW d ∧
    objectsRelPathW d =
      "objects/" ++ String.mk (d.data.take 2) ++ "/" ++ String.mk (d.data.drop 2) ∧
    (d.data.take 2).length = 2 ∧ (d.data.drop 2).length = 38 ∧
    (∀ st o, (object_write st o true).2 =
      (objectsRelPathW (GitObject.hash o), o.content_with_headers) :: st) := by
  have hd : d.data.length = 40 := h
  refine ⟨rfl, rfl, ?_, ?_, fun st o => rfl⟩
  · simp [List.length_take, hd]
  · simp [List.length_drop, hd]

/-- Witness for C9 at the spec's example digest. -/
theorem C9_sharded_path_witness :
    objectsRelPathW "0db144f804c5e452b7b3574ebc77c0256e746d86" =
      "objects/0d/b144f804c5e452b7b3574ebc77c0256e746d86" ∧
    objectsRelPathR "0db144f804c5e452b7b3574ebc77c0256e746d86" =
      objectsRelPathW "0db144f804c5e452b7b3574ebc77c0256e746d86" := by
  refine ⟨by decide, (C9_sharded_path "0db144f804c5e452b7b3574ebc77c0256e746d86" (by decide)).1⟩

/-- C5.  The standalone `Tree` draft (src/object/tree.rs) writes the literal
type name `"blob"` into its encoded header, so the variant tag does not
determine the header's type-name string there: the header of an empty `Tree`
draft is `"blob 0\x00"`, and for every content the first four header bytes
spell `"blob"`, never `"tree"`. -/
theorem C5_tree_draft_blob_header :
    TreeDraft.encoded_header [] = asciiStr "blob 0\x00" ∧
    (∀ content : List Nat, (TreeDraft.encoded_header content).take 4 = asciiStr "blob") ∧
    asciiStr "blob" ≠ asciiStr "tree" := by
  refine ⟨by decide, ?_, by decide⟩
  intro content
  have hlen : (asciiStr "blob").length = 4 := by decide
  rw [TreeDraft.encoded_header, ← hlen, List.take_left]

/-- C1.  Write/read round trip at `Blob("hello world")`: the object read
back is a `Blob`, but its payload is `"\x00hello world"` — the NUL frame
separator is retained at the front (the source takes
`&file_contents[object_size_index..]` instead of starting one byte later) —
so the payload does not equal the original payload. -/
theorem C1_roundtrip_prepends_nul :
    object_read (object_write [] (GitObject.Blob (asciiStr "hello world")) true).2
        (object_write [] (GitObject.Blob (asciiStr "hello world")) true).1 =
      ReadResult.ok (GitObject.Blob (0 :: asciiStr "hello world")) ∧
    (0 :: asciiStr "hello world") ≠ asciiStr "hello world" := by
  exact ⟨by decide, by decide⟩

/-- Lowercase hexadecimal character predicate. -/
def isLowerHexChar (c : Char) : Prop := c ∈ "0123456789abcdef".data

instance (c : Char) : Decidable (isLowerHexChar c) := by
  unfold isLowerHexChar; infer_instance

theorem hexDigitChar_isLowerHex {m : Nat} (h : m < 16) :
    isLowerHexChar (hexDigitChar m) := by
  have hall : ∀ m ∈ List.range 16, isLowerHexChar (hexDigitChar m) := by decide
  exact hall m (List.mem_range.mpr h)

theorem toHexFixed_length (k : Nat) : ∀ v, (toHexFixed k v).length = k := by
  induction k with
  | zero => intro v; rfl
  | succ k ih => intro v; simp [toHexFixed, ih]

theorem toHexFixed_mem_isLowerHex (k : Nat) :
    ∀ v c, c ∈ toHexFixed k v → isLowerHexChar c := by
  induction k with
  | zero => intro v c h; simp [toHexFixed] at h
  | succ k ih =>
    intro v c h
    simp only [toHexFixed, List.mem_append, List.mem_singleton] at h
    rcases h with h | h
    · exact ih _ c h
    · exact h ▸ hexDigitChar_isLowerHex (Nat.mod_lt _ (by omega))

theorem sha1hex_length (msg : List Nat) : (sha1hex msg).length = 40 := by
  unfold sha1hex sha1
  obtain ⟨a, b, c, d, e⟩ :=
    sha1Blocks (1732584193, 4023233417, 2562383102, 271733878, 3285377520)
      (toWords (sha1Pad msg))
  simp [String.length, toHexFixed_length]

theorem sha1hex_mem_isLowerHex (msg : List Nat) :
    ∀ c ∈ (sha1hex msg).data, isLowerHexChar c := by
  intro ch hch
  have h : ch ∈ ((sha1 msg).map (toHexFixed 8)).join := hch
  rw [List.mem_join] at h
  obtain ⟨l, hl, hc⟩ := h
  rw [List.mem_map] at hl
  obtain ⟨v, hv, rfl⟩ := hl
  exact toHexFixed_mem_isLowerHex 8 v ch hc

/-- C8.  Content-addressing determinism: the digest is a function of the
variant's type name and payload alone (two objects agreeing on both hash
identically), and every digest renders as exactly 40 lowercase hexadecimal
characters. -/
theorem C8_hash_deterministic_hex :
    (∀ o₁ o₂ : GitObject, o₁.type_string = o₂.type_string →
        o₁.serialise = o₂.serialise → o₁.hash = o₂.hash) ∧
    (∀ o : GitObject, o.hash.length = 40 ∧ ∀ c ∈ o.hash.data, isLowerHexChar c) := by
  constructor
  · intro o₁ o₂ ht hs
    cases o₁ <;> cases o₂ <;>
      simp only [GitObject.type_string, GitObject.serialise] at ht hs <;>
      first
      | exact absurd ht (by decide)
      | (subst hs; rfl)
  · intro o
    exact ⟨sha1hex_length _, sha1hex_mem_isLowerHex _⟩

/-- Witness for C8 at `Blob("hello world")`. -/
theorem C8_hash_deterministic_hex_witness :
    (GitObject.Blob (asciiStr "hello world")).hash =
      (GitObject.Blob (asciiStr "hello world")).hash ∧
    (GitObject.Blob (asciiStr "hello world")).hash.length = 40 :=
  ⟨C8_hash_deterministic_hex.1 _ _ rfl rfl,
   (C8_hash_deterministic_hex.2 (GitObject.Blob (asciiStr "hello world"))).1⟩

/-- Frame parsing in `object_read`, characterized on a stored frame split as
`<type-bytes> <size-bytes>\x00<payload>`: the declared-size parse decides
between an `unwrap` abort, a size-mismatch error, the typed object (whose
content keeps the leading NUL), and the unknown-type error. -/
theorem object_read_frame (st : Store) (sha : String) (tb szb p : List Nat)
    (hlk : storeLookup st (objectsRelPathR sha) = some (tb ++ 32 :: (szb ++ 0 :: p)))
    (hutf : isValidUtf8 (tb ++ 32 :: (szb ++ 0 :: p)) = true)
    (ht32 : (32 : Nat) ∉ tb) (ht0 : (0 : Nat) ∉ tb) (hs0 : (0 : Nat) ∉ szb) :
    object_read st sha =
      match usizeParse szb with
      | none => .abort "called Result::unwrap() on an Err value"
      | some declared =>
        if declared ≠ p.length then
          .err "Could not read object because sizes mismatch (object is malformed)."
        else if tb = asciiStr "commit" then .ok (.Commit (0 :: p))
        else if tb = asciiStr "tree" then .ok (.Tree (0 :: p))
        else if tb = asciiStr "tag" then .ok (.Tag (0 :: p))
        else if tb = asciiStr "blob" then .ok (.Blob (0 :: p))
        else .err "Object type does not match any known types." := by
  have h32 : strFind 32 (tb ++ 32 :: (szb ++ 0 :: p)) = some tb.length := by
    rw [strFind_append_of_not_mem _ ht32, strFind_cons_self]; simp
  have h0i : strFind 0 (szb ++ 0 :: p) = some szb.length := by
    rw [strFind_append_of_not_mem _ hs0, strFind_cons_self]; simp
  have h0 : strFind 0 (tb ++ 32 :: (szb ++ 0 :: p)) =
      some (tb.length + (szb.length + 1)) := by
    rw [strFind_append_of_not_mem _ ht0]
    have h1 : strFind 0 (32 :: (szb ++ 0 :: p)) = some (szb.length + 1) := by
      simp [strFind, h0i]
    rw [h1]; simp
  have htb : (tb ++ 32 :: (szb ++ 0 :: p)).take tb.length = tb := List.take_left tb _
  have hsz : ((tb ++ 32 :: (szb ++ 0 :: p)).take (tb.length + (szb.length + 1))).drop
      (tb.length + 1) = szb := by
    have hshape : tb ++ 32 :: (szb ++ 0 :: p) = (tb ++ 32 :: szb) ++ 0 :: p := by simp
    have hlen : (tb ++ 32 :: szb).length = tb.length + (szb.length + 1) := by
      simp only [List.length_append, List.length_cons]
    rw [hshape, List.take_left' hlen]
    have hshape2 : tb ++ 32 :: szb = (tb ++ [32]) ++ szb := by simp
    have hlen2 : (tb ++ [32]).length = tb.length + 1 := by
      simp only [List.length_append, List.length_singleton]
    rw [hshape2, List.drop_left' hlen2]
  have hct : (tb ++ 32 :: (szb ++ 0 :: p)).drop (tb.length + (szb.length + 1)) =
      0 :: p := by
    have hshape : tb ++ 32 :: (szb ++ 0 :: p) = (tb ++ 32 :: szb) ++ 0 :: p := by simp
    have hlen : (tb ++ 32 :: szb).length = tb.length + (szb.length + 1) := by
      simp only [List.length_append, List.length_cons]
    rw [hshape, List.drop_left' hlen]
  have hno : ¬ (tb.length + (szb.length + 1) < tb.length + 1) := by omega
  unfold object_read
  rw [hlk]
  simp only [hutf, h32, h0, htb, hsz, hct, if_neg hno, List.length_cons,
    Nat.succ_sub_one, if_true]

/-- C7 counterexample: reading a digest whose file does not exist aborts the
process (the source's `expect("File does not exist")`) rather than returning
a typed `NotFound`-style error value. -/
theorem C7_counterexample :
    object_read [] "0db144f804c5e452b7b3574ebc77c0256e746d86" =
      ReadResult.abort "File does not exist" ∧
    ∀ msg, object_read [] "0db144f804c5e452b7b3574ebc77c0256e746d86" ≠
      ReadResult.err msg := by
  have h0 : object_read [] "0db144f804c5e452b7b3574ebc77c0256e746d86" =
      ReadResult.abort "File does not exist" := by decide
  refine ⟨h0, ?_⟩
  intro msg h
  rw [h0] at h
  exact ReadResult.noConfusion h

/-- C7 (amended).  Read error taxonomy as the code implements it: a missing
file aborts the process (`expect`), decompressed contents that are not valid
UTF-8 abort the process (`read_to_string(..).unwrap()`), and a declared
length that does not parse as a `usize` — a non-digit token or a value
overflowing the 64-bit range — aborts the process (`parse().unwrap()`); the
remaining conditions are typed recoverable errors: no space separator, no
NUL terminator, and a declared length unequal to the trailing-payload byte
count are `Malformed`-style errors, and an unrecognized type name is the
unknown-type error. -/
theorem C7_error_taxonomy :
    (∀ st sha, storeLookup st (objectsRelPathR sha) = none →
      object_read st sha = .abort "File does not exist") ∧
    (∀ st sha fc, storeLookup st (objectsRelPathR sha) = some fc →
      isValidUtf8 fc = false →
      object_read st sha = .abort "stream did not contain valid UTF-8") ∧
    (∀ st sha fc, storeLookup st (objectsRelPathR sha) = some fc →
      isValidUtf8 fc = true →
      (32 : Nat) ∉ fc → object_read st sha = .err "File is malformed") ∧
    (∀ st sha fc ti, storeLookup st (objectsRelPathR sha) = some fc →
      isValidUtf8 fc = true →
      strFind 32 fc = some ti → (0 : Nat) ∉ fc →
      object_read st sha = .err "File is malformed") ∧
    (∀ st sha tb szb p,
      storeLookup st (objectsRelPathR sha) = some (tb ++ 32 :: (szb ++ 0 :: p)) →
      isValidUtf8 (tb ++ 32 :: (szb ++ 0 :: p)) = true →
      (32 : Nat) ∉ tb → (0 : Nat) ∉ tb → (0 : Nat) ∉ szb →
      usizeParse szb = none →
      object_read st sha = .abort "called Result::unwrap() on an Err value") ∧
    (∀ st sha tb szb p n,
      storeLookup st (objectsRelPathR sha) = some (tb ++ 32 :: (szb ++ 0 :: p)) →
      isValidUtf8 (tb ++ 32 :: (szb ++ 0 :: p)) = true →
      (32 : Nat) ∉ tb → (0 : Nat) ∉ tb → (0 : Nat) ∉ szb →
      usizeParse szb = some n → n ≠ p.length →
      object_read st sha =
        .err "Could not read object because sizes mismatch (object is malformed).") ∧
    (∀ st sha tb szb p,
      storeLookup st (objectsRelPathR sha) = some (tb ++ 32 :: (szb ++ 0 :: p)) →
      isValidUtf8 (tb ++ 32 :: (szb ++ 0 :: p)) = true →
      (32 : Nat) ∉ tb → (0 : Nat) ∉ tb → (0 : Nat) ∉ szb →
      usizeParse szb = some p.length →
      tb ≠ asciiStr "commit" → tb ≠ asciiStr "tree" →
      tb ≠ asciiStr "tag" → tb ≠ asciiStr "blob" →
      object_read st sha = .err "Object type does not match any known types.") := by
  refine ⟨?_, ?_, ?_, ?_, ?_, ?_, ?_⟩
  · intro st sha h
    unfold object_read
    rw [h]
  · intro st sha fc h hinv
    unfold object_read
    rw [h]
    simp only [hinv, Bool.false_eq_true, if_false]
  · intro st sha fc h hval h32
    unfold object_read
    rw [h]
    simp only [hval, if_true, strFind_eq_none.mpr h32]
  · intro st sha fc ti h hval hti h0
    unfold object_read
    rw [h]
    simp only [hval, if_true, hti, strFind_eq_none.mpr h0]
  · intro st sha tb szb p hlk hutf ht32 ht0 hs0 hparse
    rw [object_read_frame st sha tb szb p hlk hutf ht32 ht0 hs0, hparse]
  · intro st sha tb szb p n hlk hutf ht32 ht0 hs0 hparse hne
    rw [object_read_frame st sha tb szb p hlk hutf ht32 ht0 hs0, hparse]
    simp [hne]
  · intro st sha tb szb p hlk hutf ht32 ht0 hs0 hparse h1 h2 h3 h4
    rw [object_read_frame st sha tb szb p hlk hutf ht32 ht0 hs0, hparse]
    simp [h1, h2, h3, h4]

/-- Witness for C7 (amended), one concrete store per condition: missing
file, non-UTF-8 contents, no space, no NUL, overflowing declared length,
size mismatch, unknown type. -/
theorem C7_error_taxonomy_witness :
    object_read [] "0db144f804c5e452b7b3574ebc77c0256e746d86" =
      .abort "File does not exist" ∧
    object_read [("objects/ab/h", [255])] "abh" =
      .abort "stream did not contain valid UTF-8" ∧
    object_read [("objects/ab/c", asciiStr "nospace")] "abc" =
      .err "File is malformed" ∧
    object_read [("objects/ab/d", asciiStr "no nul here")] "abd" =
      .err "File is malformed" ∧
    object_read [("objects/ab/i", asciiStr "blob 99999999999999999999\x00hi")] "abi" =
      .abort "called Result::unwrap() on an Err value" ∧
    object_read [("objects/ab/f", asciiStr "blob 5\x00hi")] "abf" =
      .err "Could not read object because sizes mismatch (object is malformed)." ∧
    object_read [("objects/ab/g", asciiStr "widget 2\x00hi")] "abg" =
      .err "Object type does not match any known types." := by
  refine ⟨C7_error_taxonomy.1 [] _ (by decide),
    C7_error_taxonomy.2.1 _ "abh" [255] (by decide) (by decide),
    C7_error_taxonomy.2.2.1 _ "abc" (asciiStr "nospace") (by decide) (by decide)
      (by decide),
    C7_error_taxonomy.2.2.2.1 _ "abd" (asciiStr "no nul here") 2 (by decide) (by decide)
      (by decide) (by decide),
    C7_error_taxonomy.2.2.2.2.1 _ "abi" (asciiStr "blob")
      (asciiStr "99999999999999999999") (asciiStr "hi")
      (by decide) (by decide) (by decide) (by decide) (by decide) (by decide),
    C7_error_taxonomy.2.2.2.2.2.1 _ "abf" (asciiStr "blob") (asciiStr "5")
      (asciiStr "hi") 5
      (by decide) (by decide) (by decide) (by decide) (by decide) (by decide) (by decide),
    C7_error_taxonomy.2.2.2.2.2.2 _ "abg" (asciiStr "widget") (asciiStr "2")
      (asciiStr "hi")
      (by decide) (by decide) (by decide) (by decide) (by decide) (by decide)
      (by decide) (by decide) (by decide) (by decide)⟩

/-- C6 counterexample: with the metadata directory present at the filesystem
root itself, `repo_find` still returns `None` — the parent check precedes
the metadata-directory check, so the root is never examined. -/
theorem C6_counterexample :
    repo_find (fun p => p.isEmpty) [] = none ∧
    (fun (p : List String) => p.isEmpty) [] = true := by
  constructor
  · simp [repo_find]
  · rfl

/-- Search exhaustion: `repo_find` returns `none` exactly when no non-root prefix of the path
(the path itself included) has the metadata directory. -/
theorem repo_find_none_iff (hasGotDir : List String → Bool) :
    ∀ (n : Nat) (p : List String), p.length ≤ n →
      (repo_find hasGotDir p = none ↔
        ∀ k, 0 < k → k ≤ p.length → hasGotDir (p.take k) = false) := by
  intro n
  induction n with
  | zero =>
    intro p hp
    have hnil : p = [] := List.length_eq_zero.mp (Nat.le_zero.mp hp)
    subst hnil
    simp only [repo_find, List.length_nil]
    constructor
    · intro _ k hk0 hk; omega
    · intro _; trivial
  | succ n ih =>
    intro p hp
    cases p with
    | nil =>
      simp only [repo_find, List.length_nil]
      constructor
      · intro _ k hk0 hk; omega
      · intro _; trivial
    | cons s rest =>
      by_cases hgot : hasGotDir (s :: rest) = true
      · rw [repo_find, if_pos hgot]
        constructor
        · intro h; exact absurd h (by simp)
        · intro hall
          have := hall (s :: rest).length (by simp) (Nat.le_refl _)
          rw [List.take_length] at this
          rw [hgot] at this
          exact absurd this (by simp)
      · have hgot' : hasGotDir (s :: rest) = false := by
          cases hv : hasGotDir (s :: rest)
          · rfl
          · exact absurd hv hgot
        rw [repo_find, if_neg hgot]
        have hlen : (s :: rest).dropLast.length ≤ n := by
          simp only [List.length_dropLast, List.length_cons] at hp ⊢
          omega
        rw [ih (s :: rest).dropLast hlen]
        have hdl : (s :: rest).dropLast = (s :: rest).take ((s :: rest).length - 1) :=
          List.dropLast_eq_take _
        constructor
        · intro hall k hk0 hk
          by_cases hke : k ≤ (s :: rest).length - 1
          · have := hall k hk0 (by rw [hdl, List.length_take]; omega)
            rw [hdl, List.take_take] at this
            rwa [Nat.min_eq_left hke] at this
          · have hkeq : k = (s :: rest).length := by
              simp only [List.length_cons] at hk hke ⊢
              omega
            rw [hkeq, List.take_length]
            exact hgot'
        · intro hall k hk0 hk
          rw [hdl, List.length_take] at hk
          have hk' : k ≤ (s :: rest).length - 1 := by omega
          rw [hdl, List.take_take, Nat.min_eq_left hk']
          exact hall k hk0 (by simp only [List.length_cons] at hk' ⊢; omega)

/-- C6 (amended).  `repo_find` on a canonical path: when the path has no
parent (the filesystem root) it returns `None` even if the metadata
directory exists there; otherwise it returns a handle rooted at the path
when `<path>/.got` is a directory and recurses on the parent when not; and
it returns `None` exactly when no non-root ancestor-or-self contains the
metadata directory. -/
theorem C6_repo_find_discovery (hasGotDir : List String → Bool) (p : List String) :
    repo_find hasGotDir [] = none ∧
    (p ≠ [] → hasGotDir p = true → repo_find hasGotDir p = some p) ∧
    (p ≠ [] → hasGotDir p = false → repo_find hasGotDir p = repo_find hasGotDir p.dropLast) ∧
    (repo_find hasGotDir p = none ↔
      ∀ k, 0 < k → k ≤ p.length → hasGotDir (p.take k) = false) := by
  refine ⟨by simp [repo_find], ?_, ?_, repo_find_none_iff hasGotDir p.length p (Nat.le_refl _)⟩
  · intro hne hgot
    cases p with
    | nil => exact absurd rfl hne
    | cons s rest => rw [repo_find, if_pos hgot]
  · intro hne hgot
    cases p with
    | nil => exact absurd rfl hne
    | cons s rest => rw [repo_find, if_neg (by rw [hgot]; exact Bool.false_ne_true)]

/-- Witness for C6 (amended): a repository at `/home` discovered from
`/home/alice`, by one parent step and one successful bind. -/
theorem C6_repo_find_discovery_witness :
    repo_find (fun q => decide (q = ["home"])) ["home", "alice"] =
      repo_find (fun q => decide (q = ["home"])) ["home"] ∧
    repo_find (fun q => decide (q = ["home"])) ["home"] = some ["home"] := by
  refine ⟨?_, ?_⟩
  · exact (C6_repo_find_discovery (fun q => decide (q = ["home"])) ["home", "alice"]).2.2.1
      (by decide) (by decide)
  · exact (C6_repo_find_discovery (fun q => decide (q = ["home"])) ["home"]).2.1
      (by decide) (by decide)
